import Mathlib

/-!
Verification of the YC-Go-Scraper job-scraping pipeline.

The Python sources are shallowly embedded over `List Char` (Python `str`),
with Python string primitives (`lower`, substring `in`, `strip`, `split`,
`splitlines`, `replace`, `find`/`rfind`) modelled character by character for
the ASCII-plus-common-whitespace fragment the program manipulates.
-/

namespace YC

/-- Python `str.lower` on a single character (ASCII model). -/
def pyLowerChar (c : Char) : Char :=
  if 'A' ≤ c ∧ c ≤ 'Z' then Char.ofNat (c.toNat + 32) else c

/-- Python `str.upper` on a single character (ASCII model). -/
def pyUpperChar (c : Char) : Char :=
  if 'a' ≤ c ∧ c ≤ 'z' then Char.ofNat (c.toNat - 32) else c

/-- Python `str.lower`. -/
def pyLower (s : List Char) : List Char := s.map pyLowerChar

/-- Python `str.capitalize`: first character upper-cased, the rest lower-cased. -/
def pyCapitalize (s : List Char) : List Char :=
  match s with
  | [] => []
  | c :: r => pyUpperChar c :: r.map pyLowerChar

/-- Python substring containment `need in hay`. -/
def strContains (hay need : List Char) : Bool :=
  hay.tails.any (fun t => need.isPrefixOf t)

/-- `any(k in hay for k in needles)`. -/
def containsAny (hay : List Char) (needles : List (List Char)) : Bool :=
  needles.any (fun n => strContains hay n)

/-- A regex word character `\w` (ASCII model): letters, digits, underscore. -/
def isWordChar (c : Char) : Bool := c.isAlphanum || c = '_'

/-- Python whitespace for `str.strip` / `\s` (ASCII plus the common extras
`\x1c`-`\x1f`, NEL and NBSP, all of which satisfy Python's `str.isspace`). -/
def isPySpace (c : Char) : Bool :=
  c = ' ' || c = '\t' || c = '\n' || c = '\x0b' || c = '\x0c' || c = '\r' ||
  c = Char.ofNat 0x1c || c = Char.ofNat 0x1d || c = Char.ofNat 0x1e ||
  c = Char.ofNat 0x1f || c = Char.ofNat 0x85 || c = Char.ofNat 0xa0

/-- Python `str.strip()` (no-argument form: strips whitespace on both ends). -/
def pyStrip (s : List Char) : List Char :=
  ((s.dropWhile isPySpace).reverse.dropWhile isPySpace).reverse

/-- Word boundary `\b` looking left: the character before the match position
(`none` at the start of the string) must not be a word character. -/
def boundaryPrev : Option Char → Bool
  | none => true
  | some c => !isWordChar c

/-- Word boundary `\b` looking right: the character after the match
(`none` at the end of the string) must not be a word character. -/
def boundaryAfter (post : List Char) : Bool :=
  match post.head? with
  | none => true
  | some c => !isWordChar c

/-- At the current position (suffix `s`, preceded by `prev`), does one of the
alternatives `toks` match with `\b` on both sides? -/
def tokenAt (toks : List (List Char)) (prev : Option Char) (s : List Char) : Bool :=
  toks.any fun tok =>
    tok.isPrefixOf s && boundaryPrev prev && boundaryAfter (s.drop tok.length)

/-- Scan of `re.search` for the alternation `\b(tok1|tok2|...)\b`: try every
position left to right. `prev` is the character just before the current
position. -/
def wordScan (toks : List (List Char)) : Option Char → List Char → Bool
  | prev, [] => tokenAt toks prev []
  | prev, c :: r => tokenAt toks prev (c :: r) || wordScan toks (some c) r

/-- `re.search(r'\b(tok1|...|tokn)\b', s)` as a Boolean. -/
def hasWordToken (toks : List (List Char)) (s : List Char) : Bool :=
  wordScan toks none s

/-- The experience-requirement tail after the matched digits: optional `+`,
then `\s*`, then `years`/`year`/`yrs`/`yr` followed by `\b`. -/
def yearsTail (s : List Char) : Bool :=
  let s1 := match s with | '+' :: r => r | _ => s
  let s2 := s1.dropWhile isPySpace
  ["years".toList, "year".toList, "yrs".toList, "yr".toList].any fun w =>
    w.isPrefixOf s2 && boundaryAfter (s2.drop w.length)

/-- Scan for `re.search(r'\b(5|6|7|8|9|10)\+?\s*(years?|yrs?)\b', s)`. -/
def yearsScan : Option Char → List Char → Bool
  | prev, [] =>
    boundaryPrev prev &&
      (["5".toList, "6".toList, "7".toList, "8".toList, "9".toList, "10".toList].any
        fun n => n.isPrefixOf ([] : List Char) && yearsTail (([] : List Char).drop n.length))
  | prev, c :: r =>
    (boundaryPrev prev &&
      (["5".toList, "6".toList, "7".toList, "8".toList, "9".toList, "10".toList].any
        fun n => n.isPrefixOf (c :: r) && yearsTail ((c :: r).drop n.length)))
    || yearsScan (some c) r

/-- `re.search(r'\b(5|6|7|8|9|10)\+?\s*(years?|yrs?)\b', s)` as a Boolean. -/
def hasYearsPattern (s : List Char) : Bool := yearsScan none s

/-! ### greenhouse_scraper.py: keyword lists and the two relevance predicates -/

/-- Keywords that identify early-career roles (greenhouse_scraper.py line 15). -/
def EARLY_CAREER_KEYWORDS : List (List Char) :=
  ["intern".toList, "internship".toList, "new grad".toList, "new graduate".toList,
   "associate".toList, "junior".toList, "entry level".toList, "entry-level".toList,
   "rotational".toList, "co-op".toList, "fellow".toList, "apprentice".toList]

/-- Keywords that identify senior roles to exclude (greenhouse_scraper.py line 21). -/
def SENIOR_ROLE_KEYWORDS : List (List Char) :=
  ["senior".toList, "sr.".toList, "lead".toList, "staff".toList, "principal".toList,
   "manager".toList, "director".toList, "architect".toList, "vp".toList,
   "head of".toList, "chief".toList, "executive".toList]

/-- The regex alternatives of `r'\b(i|ii|iii|1|2|3)\b'`. -/
def levelTokens : List (List Char) :=
  ["i".toList, "ii".toList, "iii".toList, "1".toList, "2".toList, "3".toList]

/-- `basic_roles` local to `is_early_career` (greenhouse_scraper.py line 43). -/
def basic_roles_gh : List (List Char) :=
  ["engineer".toList, "developer".toList, "analyst".toList,
   "specialist".toList, "coordinator".toList]

/-- `is_early_career` (greenhouse_scraper.py lines 26-50). -/
def is_early_career (title : List Char) : Bool :=
  let lower_title := pyLower title
  if containsAny lower_title SENIOR_ROLE_KEYWORDS then false
  else if containsAny lower_title EARLY_CAREER_KEYWORDS then true
  else if hasWordToken levelTokens lower_title then true
  else if containsAny lower_title basic_roles_gh then
    if hasYearsPattern lower_title then false else true
  else false

/-- `usa_identifiers` local to `is_in_usa` (greenhouse_scraper.py lines 60-67). -/
def usa_identifiers : List (List Char) :=
  ["united states".toList, "usa".toList, "us".toList, "remote".toList,
   "united states of america".toList,
   "new york".toList, "san francisco".toList, "seattle".toList, "austin".toList,
   "boston".toList, "chicago".toList,
   "los angeles".toList, "atlanta".toList, "dallas".toList, "houston".toList,
   "miami".toList, "denver".toList,
   "phoenix".toList, "philadelphia".toList, "washington".toList, "dc".toList,
   "nashville".toList, "portland".toList,
   "san diego".toList, "minneapolis".toList, "detroit".toList, "cleveland".toList,
   "pittsburgh".toList,
   "charlotte".toList, "raleigh".toList, "orlando".toList, "tampa".toList,
   "jacksonville".toList, "columbus".toList]

/-- `is_in_usa` (greenhouse_scraper.py lines 52-69). -/
def is_in_usa (location : List Char) : Bool :=
  if location = [] then false
  else containsAny (pyLower location) usa_identifiers

/-! ### Substring and word-boundary search, characterised declaratively -/

theorem strContains_iff_sub (hay need : List Char) :
    strContains hay need = true ↔ need <:+: hay := by
  unfold strContains
  rw [List.infix_iff_prefix_suffix]
  simp only [List.any_eq_true, List.mem_tails, List.isPrefixOf_iff_prefix]
  exact ⟨fun ⟨t, ht, hp⟩ => ⟨t, hp, ht⟩, fun ⟨t, hp, ht⟩ => ⟨t, ht, hp⟩⟩

theorem containsAny_iff (hay : List Char) (needles : List (List Char)) :
    containsAny hay needles = true ↔ ∃ n ∈ needles, n <:+: hay := by
  unfold containsAny
  simp only [List.any_eq_true, strContains_iff_sub]

/-- The claim's "standalone whole-word token": the string decomposes as
`pre ++ tok ++ post` where `tok` is one of the alternatives and the characters
adjacent to `tok` (when they exist) are not word characters. -/
def StandaloneToken (toks : List (List Char)) (s : List Char) : Prop :=
  ∃ pre tok post, s = pre ++ tok ++ post ∧ tok ∈ toks ∧
    boundaryPrev pre.getLast? = true ∧ boundaryAfter post = true

theorem getLast?_cons_eq_or (c : Char) (l : List Char) :
    (c :: l).getLast? = l.getLast?.or (some c) := by
  induction l generalizing c with
  | nil => rfl
  | cons d t ih =>
    rw [List.getLast?_cons_cons, ih d, Option.or_assoc]
    simp

theorem wordScan_iff (toks : List (List Char)) (prev : Option Char) (s : List Char) :
    wordScan toks prev s = true ↔
      ∃ pre tok post, s = pre ++ tok ++ post ∧ tok ∈ toks ∧
        boundaryPrev (pre.getLast?.or prev) = true ∧ boundaryAfter post = true := by
  induction s generalizing prev with
  | nil =>
    simp only [wordScan, tokenAt, List.any_eq_true, Bool.and_eq_true,
      List.isPrefixOf_iff_prefix]
    constructor
    · rintro ⟨tok, htok, ⟨hpre, hbp⟩, hba⟩
      have htok0 : tok = [] := List.prefix_nil.mp hpre
      subst htok0
      exact ⟨[], [], [], rfl, htok, by simpa using hbp, by simpa using hba⟩
    · rintro ⟨pre, tok, post, heq, htok, hbp, hba⟩
      obtain ⟨h12, h3⟩ := List.append_eq_nil.mp heq.symm
      obtain ⟨h1, h2⟩ := List.append_eq_nil.mp h12
      subst h1; subst h2; subst h3
      exact ⟨[], htok, ⟨List.nil_prefix, by simpa using hbp⟩, by simpa using hba⟩
  | cons c r ih =>
    simp only [wordScan, Bool.or_eq_true]
    constructor
    · rintro (h | h)
      · simp only [tokenAt, List.any_eq_true, Bool.and_eq_true,
          List.isPrefixOf_iff_prefix] at h
        obtain ⟨tok, htok, ⟨hpre, hbp⟩, hba⟩ := h
        obtain ⟨post, hpost⟩ := hpre
        refine ⟨[], tok, post, by simpa using hpost.symm, htok, by simpa using hbp, ?_⟩
        rwa [← hpost, List.drop_left] at hba
      · obtain ⟨pre, tok, post, heq, htok, hbp, hba⟩ := (ih (some c)).mp h
        refine ⟨c :: pre, tok, post, by simp [heq], htok, ?_, hba⟩
        rw [getLast?_cons_eq_or, Option.or_assoc]
        simpa using hbp
    · rintro ⟨pre, tok, post, heq, htok, hbp, hba⟩
      cases pre with
      | nil =>
        left
        simp only [List.nil_append] at heq
        simp only [tokenAt, List.any_eq_true, Bool.and_eq_true,
          List.isPrefixOf_iff_prefix]
        refine ⟨tok, htok, ⟨⟨post, heq.symm⟩, by simpa using hbp⟩, ?_⟩
        rw [heq, List.drop_left]
        exact hba
      | cons c' pre' =>
        right
        obtain ⟨hc1, hc2⟩ : c' = c ∧ pre' ++ (tok ++ post) = r := by
          simpa using heq.symm
        refine (ih (some c)).mpr
          ⟨pre', tok, post, by rw [List.append_assoc]; exact hc2.symm, htok, ?_, hba⟩
        rw [getLast?_cons_eq_or, Option.or_assoc] at hbp
        rw [← hc1]
        simpa using hbp

theorem hasWordToken_iff (toks : List (List Char)) (s : List Char) :
    hasWordToken toks s = true ↔ StandaloneToken toks s := by
  unfold hasWordToken StandaloneToken
  rw [wordScan_iff]
  simp only [Option.or_none]

/-- C1: `is_early_career` lower-cases the title and decides in order: false on
any senior-marker keyword; else true on any early-career keyword; else true on
a standalone whole-word level token in `{i, ii, iii, 1, 2, 3}`; else, on a
basic-role word, true unless the 5-to-10-plus-years experience pattern also
matches; otherwise false.  The three examples of the claim evaluate as stated. -/
theorem c1_role_level_predicate :
    (∀ title : List Char,
      is_early_career title = true ↔
        ((¬ ∃ k ∈ SENIOR_ROLE_KEYWORDS, k <:+: pyLower title) ∧
         ((∃ k ∈ EARLY_CAREER_KEYWORDS, k <:+: pyLower title) ∨
          StandaloneToken levelTokens (pyLower title) ∨
          ((∃ r ∈ basic_roles_gh, r <:+: pyLower title) ∧
            hasYearsPattern (pyLower title) = false)))) ∧
    is_early_career ("Senior Software Engineer".toList) = false ∧
    is_early_career ("Software Engineer II".toList) = true ∧
    is_early_career ("Marketing Intern".toList) = true := by
  refine ⟨fun title => ?_, by decide, by decide, by decide⟩
  rw [← containsAny_iff (pyLower title) SENIOR_ROLE_KEYWORDS,
      ← containsAny_iff (pyLower title) EARLY_CAREER_KEYWORDS,
      ← containsAny_iff (pyLower title) basic_roles_gh,
      ← hasWordToken_iff levelTokens (pyLower title)]
  unfold is_early_career
  cases h1 : containsAny (pyLower title) SENIOR_ROLE_KEYWORDS <;>
    cases h2 : containsAny (pyLower title) EARLY_CAREER_KEYWORDS <;>
      cases h3 : hasWordToken levelTokens (pyLower title) <;>
        cases h4 : containsAny (pyLower title) basic_roles_gh <;>
          cases h5 : hasYearsPattern (pyLower title) <;>
            simp [h1, h2, h3, h4, h5]

/-- C4: `is_in_usa` is false on the empty location and otherwise true exactly
when the lower-cased location contains some allow-list entry as a substring
("remote" being one of the entries); "Berlin, Germany" is rejected. -/
theorem c4_geography_predicate :
    (∀ loc : List Char,
      is_in_usa loc = true ↔
        (loc ≠ [] ∧ ∃ i ∈ usa_identifiers, i <:+: pyLower loc)) ∧
    "remote".toList ∈ usa_identifiers ∧
    is_in_usa ("Berlin, Germany".toList) = false ∧
    is_in_usa ([] : List Char) = false := by
  refine ⟨fun loc => ?_, by decide, by decide, by decide⟩
  unfold is_in_usa
  by_cases hl : loc = []
  · simp [hl]
  · simp [hl, containsAny_iff]

/-! ### The store (Supabase table `job_applications`) and the persister

The store is modelled as a list of rows; the URL column carries the table's
unique constraint, so an insert for an existing URL raises a
unique-constraint error.  Non-duplicate write failures (row-level-security
denial, malformed payload) depend on the environment and are modelled by an
oracle argument `wfail`. -/

/-- A row of the `job_applications` table (the fields the pipeline reads). -/
structure Row where
  Title : List Char
  Location : Option (List Char)
  URL : List Char
deriving DecidableEq, Repr

/-- Write errors the Supabase client can raise on insert. -/
inductive DbError
  | uniqueViolation
  | rlsDenied
  | badPayload
deriving DecidableEq, Repr

/-- `supabase.table('job_applications').insert(...).execute()`: the store
enforces URL uniqueness; other write failures come from the oracle `wfail`. -/
def dbInsert (wfail : Option DbError) (store : List Row) (r : Row) :
    Except DbError (List Row) :=
  if store.any (fun x => x.URL == r.URL) then Except.error DbError.uniqueViolation
  else
    match wfail with
    | some e => Except.error e
    | none => Except.ok (store ++ [r])

/-- `save_to_supabase` (job_scraper_engine.py lines 222-230; the variant in
greenhouse_scraper.py lines 88-109 behaves identically on the insert path):
`try: insert; return True  except Exception: print(error); return False`.
Returns the success flag and the resulting store. -/
def save_to_supabase (wfail : Option DbError) (store : List Row) (jd : Row) :
    Bool × List Row :=
  match dbInsert wfail store jd with
  | Except.ok s => (true, s)
  | Except.error _ => (false, store)

/-! ### should_process_job (job_scraper_engine.py lines 232-295) -/

/-- The `targeting` section of the scraper configuration. -/
structure TargetingConfig where
  exclude_keywords : List (List Char)
  include_keywords : List (List Char)
  locations : List (List Char)
deriving DecidableEq, Repr

/-- The fields of `job_details` that `should_process_job` consults.
`Location` is `Option` because the extractor may produce `None`. -/
structure JobFieldsT where
  Title : List Char
  Location : Option (List Char)
deriving DecidableEq, Repr

/-- `basic_roles` local to `should_process_job` (job_scraper_engine.py
line 276) — note: no 'coordinator' here, unlike `is_early_career`. -/
def basic_roles_engine : List (List Char) :=
  ["engineer".toList, "developer".toList, "analyst".toList, "specialist".toList]

/-- `should_process_job(job_details, config)`: `None`/missing-title job details
are rejected; any exclude keyword in the title rejects; if no include keyword
matches, the title must contain a basic-role word; a non-empty location list
requires a location substring match; otherwise accept. -/
def should_process_job (jd? : Option JobFieldsT) (cfg : TargetingConfig) : Bool :=
  match jd? with
  | none => false
  | some jd =>
    if jd.Title = [] then false
    else
      let title := pyLower jd.Title
      let location := match jd.Location with
        | none => []
        | some l => pyLower l
      if cfg.exclude_keywords.any (fun w => strContains title (pyLower w)) then false
      else
        let has_included := cfg.include_keywords.any
          (fun w => strContains title (pyLower w))
        if !has_included &&
            !(basic_roles_engine.any (fun r => strContains title r)) then false
        else if !cfg.locations.isEmpty &&
            !(cfg.locations.any (fun l => strContains location (pyLower l))) then false
        else true

/-- C5 counterexample: with all three targeting lists empty and the non-empty
title "Marketing Intern", `should_process_job` returns `false` (the fallback
basic-role check still applies), refuting the claim that it returns true for
every non-empty title under an all-empty configuration. -/
theorem c5_counterexample :
    should_process_job
      (some { Title := "Marketing Intern".toList, Location := none })
      { exclude_keywords := [], include_keywords := [], locations := [] } = false := by
  decide

/-- C5 (amended): empty exclude and location lists do disable those
sub-checks, but an empty include list leaves the basic-role fallback in
force: with all three targeting lists empty, `should_process_job` returns
true exactly when the title is non-empty and contains a basic-role word
(engineer, developer, analyst, specialist). -/
theorem c5_empty_lists_behaviour (jd : JobFieldsT) :
    should_process_job (some jd)
        { exclude_keywords := [], include_keywords := [], locations := [] } =
      (decide (jd.Title ≠ []) &&
        basic_roles_engine.any (fun r => strContains (pyLower jd.Title) r)) := by
  unfold should_process_job
  by_cases ht : jd.Title = []
  · simp [ht]
  · by_cases hb :
      basic_roles_engine.any (fun r => strContains (pyLower jd.Title) r) = true
    · simp [ht, hb]
    · simp [ht, hb]

/-- C2 counterexample: inserting a record whose URL is already in the store
returns `false` — the same generic failure flag the function returns for a
row-level-security denial — so the duplicate is reported as an error, not as
a distinguished success-no-op Duplicate outcome. -/
theorem c2_counterexample :
    (save_to_supabase none
        [{ Title := "Engineer".toList, Location := none,
           URL := "https://x/1".toList }]
        { Title := "Engineer".toList, Location := none,
          URL := "https://x/1".toList }).1 = false ∧
    (save_to_supabase (some DbError.rlsDenied) []
        { Title := "Engineer".toList, Location := none,
          URL := "https://x/2".toList }).1 = false := by
  exact ⟨rfl, rfl⟩

/-- C2 (amended): persisting a record whose URL already exists returns the
generic failure flag `false` (indistinguishable, in the returned value, from
any other write failure), leaves the store unchanged, and therefore leaves
exactly one row with that URL in the store. -/
theorem c2_duplicate_save_noop (wfail : Option DbError) (store : List Row)
    (jd : Row) (h : store.countP (fun r => r.URL == jd.URL) = 1) :
    save_to_supabase wfail store jd = (false, store) ∧
    (save_to_supabase wfail store jd).2.countP (fun r => r.URL == jd.URL) = 1 := by
  have hany : store.any (fun x => x.URL == jd.URL) = true := by
    rw [List.any_eq_true]
    have hpos : 0 < store.countP (fun r => r.URL == jd.URL) := by omega
    exact List.countP_pos_iff.mp hpos
  have hsave : save_to_supabase wfail store jd = (false, store) := by
    unfold save_to_supabase dbInsert
    simp [hany]
  exact ⟨hsave, by rw [hsave]; exact h⟩

/-- An already-persisted row for the C2 witness. -/
def dupRow1 : Row :=
  { Title := "T".toList, Location := none, URL := "https://x/1".toList }

/-- A new record carrying the same URL for the C2 witness. -/
def dupRow2 : Row :=
  { Title := "T2".toList, Location := none, URL := "https://x/1".toList }

theorem c2_duplicate_save_noop_witness :
    ([dupRow1].countP (fun r => r.URL == dupRow2.URL) = 1) ∧
    (save_to_supabase none [dupRow1] dupRow2 = (false, [dupRow1]) ∧
     (save_to_supabase none [dupRow1] dupRow2).2.countP
        (fun r => r.URL == dupRow2.URL) = 1) :=
  ⟨by decide, c2_duplicate_save_noop none [dupRow1] dupRow2 (by decide)⟩

/-! ### The two existence-check variants (C8) -/

/-- `check_if_job_exists` (job_scraper_engine.py lines 134-141):
`len(response.data) > 0` over the rows matching the URL equality query. -/
def check_if_job_exists (store : List Row) (url : List Char) : Bool :=
  decide ((store.filter (fun r => r.URL == url)).length > 0)

/-- Python truthiness of a two-element tuple: always true (non-empty). -/
def pyPairTruthy {α β : Type} (_ : α × β) : Bool := true

/-- `check_if_job_exists` (job_tracker_v3.py lines 350-365): the client
response unpacks as `data, count = ...execute()` with `data = ('data', rows)`
— the two-element convention this repository uses for every `execute()` call —
and the function tests `if data and len(data[1]) > 0`.  The selected column
(`id` there, `URL` in the engine) does not change the number of matching
rows. -/
def check_if_job_exists_v3 (store : List Row) (url : List Char) : Bool :=
  let dataPair : List Char × List Row :=
    ("data".toList, store.filter (fun r => r.URL == url))
  if pyPairTruthy dataPair && decide (dataPair.2.length > 0) then true else false

/-- C8: the two existence-check variants agree on every store and URL, and
both return true exactly when a row with that URL exists in the store. -/
theorem c8_check_variants_equivalent :
    ∀ (store : List Row) (url : List Char),
      check_if_job_exists store url = check_if_job_exists_v3 store url ∧
      (check_if_job_exists store url = true ↔ ∃ r ∈ store, r.URL = url) := by
  intro store url
  constructor
  · unfold check_if_job_exists check_if_job_exists_v3 pyPairTruthy
    simp
  · unfold check_if_job_exists
    simp only [decide_eq_true_eq, List.length_pos_iff_exists_mem, List.mem_filter,
      beq_iff_eq]

/-! ### The phase-3 orchestrator loop (job_scraper_engine.py main, 679-708) -/

/-- Pipeline stages the orchestrator invokes for a candidate URL. -/
inductive Act
  | checkA (u : List Char)
  | acquireA (u : List Char)
  | extractA (u : List Char)
  | persistA (u : List Char)
deriving DecidableEq, Repr

/-- External collaborators of the per-URL loop body: the content acquirer
(`get_page_text`), the field extractor (`extract_details_with_gemini`,
abstracted to the fields the filter reads), the targeting configuration,
and the store write-failure oracle. -/
structure ScrapeEnv where
  pageText : List Char → Option (List Char)
  fieldsOf : List Char → List Char → Option JobFieldsT
  config : TargetingConfig
  wfail : List Char → Option DbError

/-- One iteration of the phase-3 loop of `main`: dedup check, then acquire,
extract, filter, persist, each stage short-circuiting only this candidate.
Returns the invoked stages and the updated store. -/
def processUrl (env : ScrapeEnv) (store : List Row) (u : List Char) :
    List Act × List Row :=
  if store.any (fun r => r.URL == u) then ([Act.checkA u], store)
  else
    match env.pageText u with
    | none => ([Act.checkA u, Act.acquireA u], store)
    | some txt =>
      match env.fieldsOf txt u with
      | none => ([Act.checkA u, Act.acquireA u, Act.extractA u], store)
      | some f =>
        if should_process_job (some f) env.config then
          ([Act.checkA u, Act.acquireA u, Act.extractA u, Act.persistA u],
           (save_to_supabase (env.wfail u) store
             { Title := f.Title, Location := f.Location, URL := u }).2)
        else ([Act.checkA u, Act.acquireA u, Act.extractA u], store)

/-- The phase-3 loop over all candidate URLs. -/
def runUrls (env : ScrapeEnv) : List Row → List (List Char) → List Act × List Row
  | store, [] => ([], store)
  | store, u :: us =>
    ((processUrl env store u).1 ++ (runUrls env (processUrl env store u).2 us).1,
     (runUrls env (processUrl env store u).2 us).2)

theorem save_to_supabase_extends (wfail : Option DbError) (store : List Row)
    (jd : Row) : ∃ ext, (save_to_supabase wfail store jd).2 = store ++ ext := by
  unfold save_to_supabase dbInsert
  by_cases h : store.any (fun x => x.URL == jd.URL) = true
  · exact ⟨[], by simp [h]⟩
  · simp only [Bool.not_eq_true] at h
    cases wfail with
    | some e => exact ⟨[], by simp [h]⟩
    | none => exact ⟨[jd], by simp [h]⟩

theorem processUrl_store_extends (env : ScrapeEnv) (store : List Row)
    (u : List Char) : ∃ ext, (processUrl env store u).2 = store ++ ext := by
  unfold processUrl
  by_cases h : store.any (fun r => r.URL == u) = true
  · exact ⟨[], by simp [h]⟩
  · simp only [Bool.not_eq_true] at h
    rcases hp : env.pageText u with _ | txt
    · exact ⟨[], by simp [h, hp]⟩
    · rcases hf : env.fieldsOf txt u with _ | f
      · exact ⟨[], by simp [h, hp, hf]⟩
      · by_cases hs : should_process_job (some f) env.config = true
        · obtain ⟨ext, hext⟩ :=
            save_to_supabase_extends (env.wfail u) store
              { Title := f.Title, Location := f.Location, URL := u }
          exact ⟨ext, by simp [h, hp, hf, hs, hext]⟩
        · simp only [Bool.not_eq_true] at hs
          exact ⟨[], by simp [h, hp, hf, hs]⟩

theorem processUrl_no_reprocess (env : ScrapeEnv) (store : List Row)
    (u u' : List Char) (h : store.any (fun r => r.URL == u) = true) :
    Act.acquireA u ∉ (processUrl env store u').1 ∧
    Act.extractA u ∉ (processUrl env store u').1 ∧
    Act.persistA u ∉ (processUrl env store u').1 := by
  by_cases he : u' = u
  · subst he
    unfold processUrl
    simp [h]
  · have hne : u ≠ u' := fun hh => he hh.symm
    unfold processUrl
    by_cases h0 : store.any (fun r => r.URL == u') = true
    · simp [h0, hne]
    · simp only [Bool.not_eq_true] at h0
      rcases hp : env.pageText u' with _ | txt
      · simp [h0, hp, hne]
      · rcases hf : env.fieldsOf txt u' with _ | f
        · simp [h0, hp, hf, hne]
        · by_cases hs : should_process_job (some f) env.config = true
          · simp [h0, hp, hf, hs, hne]
          · simp only [Bool.not_eq_true] at hs
            simp [h0, hp, hf, hs, hne]

/-- C6: for every candidate URL already present in the store at the start of
the run, the phase-3 loop performs no Acquire, no Extract and no Persist for
that URL — the dedup check short-circuits the candidate first. -/
theorem c6_rerun_skips_existing (env : ScrapeEnv) (store : List Row)
    (urls : List (List Char)) (u : List Char)
    (h : store.any (fun r => r.URL == u) = true) :
    Act.acquireA u ∉ (runUrls env store urls).1 ∧
    Act.extractA u ∉ (runUrls env store urls).1 ∧
    Act.persistA u ∉ (runUrls env store urls).1 := by
  induction urls generalizing store with
  | nil => simp [runUrls]
  | cons v us ih =>
    obtain ⟨ext, hext⟩ := processUrl_store_extends env store v
    have h2 : ((processUrl env store v).2).any (fun r => r.URL == u) = true := by
      rw [hext, List.any_append, h, Bool.true_or]
    obtain ⟨ha1, hx1, hp1⟩ := processUrl_no_reprocess env store u v h
    obtain ⟨ha2, hx2, hp2⟩ := ih _ h2
    refine ⟨?_, ?_, ?_⟩ <;>
      · intro hm
        rcases List.mem_append.mp hm with hm' | hm'
        · first
          | exact ha1 hm'
          | exact hx1 hm'
          | exact hp1 hm'
        · first
          | exact ha2 hm'
          | exact hx2 hm'
          | exact hp2 hm'

/-- A concrete environment for the C6 witness: acquisition and extraction
always succeed, the configuration is empty, the store accepts writes. -/
def env0 : ScrapeEnv where
  pageText := fun _ => some ("Software Engineer II at Acme, Remote".toList)
  fieldsOf := fun _ _ => some { Title := "Software Engineer II".toList,
                                Location := some ("Remote".toList) }
  config := { exclude_keywords := [], include_keywords := [], locations := [] }
  wfail := fun _ => none

/-- The store at the start of the witness run: one already-persisted URL. -/
def store0 : List Row :=
  [{ Title := "Old Job".toList, Location := none, URL := "https://j/1".toList }]

/-- The candidate URLs of the witness run. -/
def urls0 : List (List Char) := ["https://j/1".toList, "https://j/2".toList]

theorem c6_rerun_skips_existing_witness :
    (store0.any (fun r => r.URL == ("https://j/1".toList : List Char)) = true) ∧
    (Act.acquireA ("https://j/1".toList) ∉ (runUrls env0 store0 urls0).1 ∧
     Act.extractA ("https://j/1".toList) ∉ (runUrls env0 store0 urls0).1 ∧
     Act.persistA ("https://j/1".toList) ∉ (runUrls env0 store0 urls0).1) :=
  ⟨by decide, c6_rerun_skips_existing env0 store0 urls0 ("https://j/1".toList)
    (by decide)⟩

/-! ### Rendering-context (browser driver) lifecycle (C9)

`get_page_text` in job_tracker_v3.py and `scrape_google_careers` in
job_scraper_engine.py both create a Selenium driver and guard the body with
`try: ... finally: driver.quit()`, inside an outer `try/except`.  The
control-flow skeleton is embedded with the body's outcome abstracted to an
arbitrary success value or a raised exception; the trace records driver
creation and release events. -/

/-- Rendering-context resource events. -/
inductive REv
  | create
  | quit
deriving DecidableEq, Repr

/-- `get_page_text` (job_tracker_v3.py lines 92-158): if driver construction
fails nothing was acquired and the outer handler runs the HTTP fallback; once
the driver exists, the body (navigation, waits, selector probing, text
extraction, abstracted to `body`) runs under `try/finally driver.quit()`;
an exception then propagates to the outer handler, which attempts the HTTP
fallback (`fallback`, itself allowed to fail with `none`). -/
def get_page_text_v3 (createOk : Bool) (body : Except Unit (List Char))
    (fallback : Option (List Char)) : List REv × Option (List Char) :=
  if createOk then
    match body with
    | Except.ok txt => ([REv.create, REv.quit], some txt)
    | Except.error _ => ([REv.create, REv.quit], fallback)
  else ([], fallback)

/-- `scrape_google_careers` (job_scraper_engine.py lines 297-425): once the
driver exists, the link-collection body runs under `try/finally driver.quit()`;
on an exception the outer handler only logs, and the links gathered so far
(carried by the `error` payload) are still deduplicated and returned. -/
def scrape_google_careers_run (createOk : Bool)
    (body : Except (List (List Char)) (List (List Char))) :
    List REv × List (List Char) :=
  if createOk then
    match body with
    | Except.ok links => ([REv.create, REv.quit], links.dedup)
    | Except.error links => ([REv.create, REv.quit], links.dedup)
  else ([], ([] : List (List Char)).dedup)

/-- C9: in both acquisition calls, every execution path that creates a driver
also releases it exactly once before returning — the number of `create`
events always equals the number of `quit` events, on success, fallback and
error paths alike. -/
theorem c9_driver_released_on_all_paths :
    (∀ (createOk : Bool) (body : Except Unit (List Char))
        (fallback : Option (List Char)),
      ((get_page_text_v3 createOk body fallback).1.count REv.create =
        (get_page_text_v3 createOk body fallback).1.count REv.quit) ∧
      (REv.create ∈ (get_page_text_v3 createOk body fallback).1 →
        REv.quit ∈ (get_page_text_v3 createOk body fallback).1)) ∧
    (∀ (createOk : Bool) (body : Except (List (List Char)) (List (List Char))),
      ((scrape_google_careers_run createOk body).1.count REv.create =
        (scrape_google_careers_run createOk body).1.count REv.quit) ∧
      (REv.create ∈ (scrape_google_careers_run createOk body).1 →
        REv.quit ∈ (scrape_google_careers_run createOk body).1)) := by
  constructor
  · intro createOk body fallback
    cases createOk <;> cases body <;> simp [get_page_text_v3]
  · intro createOk body
    cases createOk <;> cases body <;> simp [scrape_google_careers_run]

/-! ### The structured-API enumerator (C10) -/

/-- One posting as returned by the Greenhouse board API
(`GET /boards/company/jobs?content=true`): the fields
`scrape_greenhouse_jobs` reads.  `location` is the `name` inside the
`location` object when present (`'N/A'` default otherwise); `metadata`
carries the `value` entries. -/
structure GhJob where
  title : List Char
  location : Option (List Char)
  absolute_url : List Char
  department : List Char
  metadata : List (List Char)
  updated_at : List Char
deriving DecidableEq, Repr

/-- The record `scrape_greenhouse_jobs` builds for each posting that passes
both filters. -/
structure FilteredJob where
  title : List Char
  location : List Char
  url : List Char
  company : List Char
  department : List Char
  job_type : List Char
  updated_at : List Char
deriving DecidableEq, Repr

/-- `scrape_greenhouse_jobs` (greenhouse_scraper.py lines 111-160): on a
request error the function returns `[]`; otherwise each posting is kept only
when `is_early_career(title)` and `is_in_usa(location)` both hold, and is
mapped to the output record. -/
def scrape_greenhouse_jobs (company_name : List Char)
    (api : Except Unit (List GhJob)) : List FilteredJob :=
  match api with
  | Except.error _ => []
  | Except.ok jobs =>
    jobs.filterMap fun job =>
      let title := job.title
      let location := job.location.getD ("N/A".toList)
      if is_early_career title && is_in_usa location then
        some { title := title, location := location, url := job.absolute_url,
               company := pyCapitalize company_name,
               department := job.department,
               job_type := match job.metadata with
                 | [] => []
                 | v :: _ => v,
               updated_at := job.updated_at }
      else none

/-- C10: the structured-API enumerator never emits an unfiltered posting —
every record in the returned list has a title accepted by `is_early_career`
and a location accepted by `is_in_usa`, for every company identifier and
every API outcome. -/
theorem c10_enumerator_emits_only_filtered :
    ∀ (company_name : List Char) (api : Except Unit (List GhJob)),
      ((scrape_greenhouse_jobs company_name api).all
        (fun j => is_early_career j.title && is_in_usa j.location)) = true := by
  intro company_name api
  cases api with
  | error e => simp [scrape_greenhouse_jobs]
  | ok jobs =>
    rw [List.all_eq_true]
    intro j hj
    simp only [scrape_greenhouse_jobs, List.mem_filterMap] at hj
    obtain ⟨job, _, hmap⟩ := hj
    simp at hmap
    obtain ⟨⟨h1, h2⟩, rfl⟩ := hmap
    simp [h1, h2]

/-! ### Text normalization (C7)

`get_page_text` (job_tracker_v3.py lines 148-154, job_tracker_v2.py lines
59-64) cleans extracted text with
`lines = (line.strip() for line in text.splitlines())`,
`chunks = (phrase.strip() for line in lines for phrase in line.split("  "))`,
`'\n'.join(chunk for chunk in chunks if chunk)`. -/

/-- The line-boundary characters of Python `str.splitlines` (ASCII plus NEL
and the Unicode line/paragraph separators). -/
def isLineBreak (c : Char) : Bool :=
  c = '\n' || c = '\r' || c = '\x0b' || c = '\x0c' ||
  c = Char.ofNat 0x1c || c = Char.ofNat 0x1d || c = Char.ofNat 0x1e ||
  c = Char.ofNat 0x85 || c = Char.ofNat 0x2028 || c = Char.ofNat 0x2029

/-- Python `str.splitlines()`: split at line-boundary characters, treating
`\r\n` as one boundary; a trailing boundary produces no extra empty line. -/
def pySplitlines : List Char → List (List Char)
  | [] => []
  | [c] => if isLineBreak c then [[]] else [[c]]
  | c :: d :: rest =>
    if isLineBreak c then
      if c = '\r' ∧ d = '\n' then [] :: pySplitlines rest
      else [] :: pySplitlines (d :: rest)
    else
      match pySplitlines (d :: rest) with
      | [] => [[c]]
      | p :: ps => (c :: p) :: ps

/-- Python `line.split("  ")`: split at each left-to-right non-overlapping
occurrence of two consecutive spaces. -/
def splitDbl : List Char → List (List Char)
  | [] => [[]]
  | [c] => [[c]]
  | c :: d :: rest =>
    if c = ' ' ∧ d = ' ' then [] :: splitDbl rest
    else
      match splitDbl (d :: rest) with
      | [] => [[c]]
      | p :: ps => (c :: p) :: ps

/-- Does the string contain two consecutive spaces? -/
def hasDbl : List Char → Bool
  | c :: d :: rest => (if c = ' ' ∧ d = ' ' then true else hasDbl (d :: rest))
  | _ => false

/-- `'\n'.join`. -/
def joinNL : List (List Char) → List Char
  | [] => []
  | [c] => c
  | c :: c2 :: cs => c ++ '\n' :: joinNL (c2 :: cs)

/-- The generator chain of `get_page_text`: stripped lines, split on double
spaces, stripped phrases, empty chunks discarded. -/
def chunksOf (t : List Char) : List (List Char) :=
  (((pySplitlines t).map pyStrip).flatMap
      (fun line => (splitDbl line).map pyStrip)).filter
    (fun c => !c.isEmpty)

/-- The whole normalization of `get_page_text`:
`'\n'.join(chunk for chunk in chunks if chunk)`. -/
def normalizeText (t : List Char) : List Char := joinNL (chunksOf t)

theorem head?_dropWhile_not (p : Char → Bool) (l : List Char) :
    ∀ c, (l.dropWhile p).head? = some c → p c = false := by
  induction l with
  | nil => intro c h; simp at h
  | cons a l ih =>
    intro c h
    by_cases hp : p a = true
    · rw [List.dropWhile_cons_of_pos hp] at h
      exact ih c h
    · rw [List.dropWhile_cons_of_neg hp] at h
      simp only [List.head?_cons, Option.some.injEq] at h
      subst h
      simpa using hp

theorem pyStrip_head (s : List Char) :
    ∀ c, (pyStrip s).head? = some c → isPySpace c = false := by
  intro c h
  unfold pyStrip at h
  rw [List.head?_reverse] at h
  have hD : (((s.dropWhile isPySpace).reverse.dropWhile isPySpace)) ≠ [] := by
    intro hnil
    rw [hnil] at h
    simp at h
  obtain ⟨pre, hpre⟩ := List.dropWhile_suffix
    (l := (s.dropWhile isPySpace).reverse) (p := isPySpace)
  have hD' : ((s.dropWhile isPySpace).reverse.dropWhile isPySpace).getLast? =
      ((s.dropWhile isPySpace).reverse).getLast? := by
    conv_rhs => rw [← hpre]
    rw [List.getLast?_append_of_ne_nil pre hD]
  rw [hD', List.getLast?_reverse] at h
  exact head?_dropWhile_not isPySpace s c h

theorem pyStrip_getLast (s : List Char) :
    ∀ c, (pyStrip s).getLast? = some c → isPySpace c = false := by
  intro c h
  unfold pyStrip at h
  rw [List.getLast?_reverse] at h
  exact head?_dropWhile_not isPySpace _ c h

theorem pyStrip_eq_self (s : List Char)
    (h1 : ∀ c, s.head? = some c → isPySpace c = false)
    (h2 : ∀ c, s.getLast? = some c → isPySpace c = false) :
    pyStrip s = s := by
  have hd : s.dropWhile isPySpace = s := by
    cases s with
    | nil => rfl
    | cons a l =>
      exact List.dropWhile_cons_of_neg (by simp [h1 a rfl])
  unfold pyStrip
  rw [hd]
  have hd2 : s.reverse.dropWhile isPySpace = s.reverse := by
    cases hrev : s.reverse with
    | nil => rfl
    | cons a l =>
      have hla : s.getLast? = some a := by
        rw [← List.head?_reverse, hrev]
        rfl
      exact List.dropWhile_cons_of_neg (by simp [h2 a hla])
  rw [hd2, List.reverse_reverse]

theorem pyStrip_idem (s : List Char) : pyStrip (pyStrip s) = pyStrip s :=
  pyStrip_eq_self (pyStrip s) (pyStrip_head s) (pyStrip_getLast s)

theorem pyStrip_sub_self (s : List Char) : pyStrip s <:+: s := by
  rw [List.infix_iff_prefix_suffix]
  refine ⟨s.dropWhile isPySpace, ?_, List.dropWhile_suffix _⟩
  rw [← List.reverse_suffix]
  unfold pyStrip
  rw [List.reverse_reverse]
  exact List.dropWhile_suffix _

theorem mem_of_mem_pyStrip (s : List Char) (x : Char) (hx : x ∈ pyStrip s) :
    x ∈ s :=
  (pyStrip_sub_self s).sublist.subset hx

theorem hasDbl_append_left (a b : List Char) (h : hasDbl a = true) :
    hasDbl (a ++ b) = true := by
  induction a with
  | nil => simp [hasDbl] at h
  | cons c a' ih =>
    cases a' with
    | nil => simp [hasDbl] at h
    | cons d a'' =>
      rw [List.cons_append, List.cons_append]
      rw [hasDbl] at h ⊢
      by_cases hcd : c = ' ' ∧ d = ' '
      · rw [if_pos hcd]
      · rw [if_neg hcd] at h ⊢
        have := ih h
        rwa [List.cons_append] at this

theorem hasDbl_append_right (a b : List Char) (h : hasDbl b = true) :
    hasDbl (a ++ b) = true := by
  induction a with
  | nil => simpa
  | cons c a' ih =>
    cases a' with
    | nil =>
      cases b with
      | nil => simp [hasDbl] at h
      | cons d b' =>
        simp only [List.nil_append, List.cons_append]
        rw [hasDbl]
        by_cases hcd : c = ' ' ∧ d = ' '
        · rw [if_pos hcd]
        · rw [if_neg hcd]
          exact h
    | cons d a'' =>
      rw [List.cons_append, List.cons_append]
      rw [hasDbl]
      by_cases hcd : c = ' ' ∧ d = ' '
      · rw [if_pos hcd]
      · rw [if_neg hcd]
        have := ih
        rwa [List.cons_append] at this

theorem hasDbl_false_of_sub (m s : List Char) (hinf : m <:+: s)
    (h : hasDbl s = false) : hasDbl m = false := by
  by_contra hc
  simp only [Bool.not_eq_false] at hc
  obtain ⟨a, b, hab⟩ := hinf
  have htrue : hasDbl s = true := by
    rw [← hab, List.append_assoc]
    exact hasDbl_append_right a (m ++ b) (hasDbl_append_left m b hc)
  rw [htrue] at h
  simp at h

theorem splitDbl_ne_nil (l : List Char) : splitDbl l ≠ [] := by
  cases l with
  | nil => simp [splitDbl]
  | cons c rest =>
    cases rest with
    | nil => simp [splitDbl]
    | cons d rest2 =>
      rw [splitDbl]
      split
      · simp
      · split <;> simp

theorem splitDbl_pieces (l : List Char) :
    (∀ p ∈ splitDbl l, hasDbl p = false) ∧
    (∀ p ps, splitDbl l = p :: ps → p = [] ∨ p.head? = l.head?) := by
  induction l using splitDbl.induct with
  | case1 => simp [splitDbl, hasDbl]
  | case2 c => simp [splitDbl, hasDbl]
  | case3 c d rest h ih =>
    constructor
    · intro p hp
      rw [splitDbl, if_pos h] at hp
      rcases List.mem_cons.mp hp with rfl | hp'
      · rfl
      · exact ih.1 p hp'
    · intro p ps hps
      rw [splitDbl, if_pos h] at hps
      exact Or.inl (List.cons.inj hps).1.symm
  | case4 c d rest h heq ih =>
    exact absurd heq (splitDbl_ne_nil _)
  | case5 c d rest h p ps heq ih =>
    have hsplit : splitDbl (c :: d :: rest) = (c :: p) :: ps := by
      rw [splitDbl, if_neg h, heq]
    constructor
    · intro q hq
      rw [hsplit] at hq
      rcases List.mem_cons.mp hq with rfl | hq'
      · rcases ih.2 p ps heq with hp0 | hphead
        · subst hp0
          simp [hasDbl]
        · cases p with
          | nil => simp [hasDbl]
          | cons e p' =>
            simp only [List.head?_cons, Option.some.injEq] at hphead
            have hpd : hasDbl (e :: p') = false :=
              ih.1 (e :: p') (by rw [heq]; exact List.mem_cons_self _ _)
            rw [hasDbl, if_neg (fun hx => h ⟨hx.1, hphead ▸ hx.2⟩)]
            exact hpd
      · exact ih.1 q (by rw [heq]; exact List.mem_cons_of_mem _ hq')
    · intro q qs hqs
      rw [hsplit] at hqs
      exact Or.inr (by rw [← (List.cons.inj hqs).1]; rfl)

theorem splitDbl_of_hasDbl_false (l : List Char) (h : hasDbl l = false) :
    splitDbl l = [l] := by
  induction l using splitDbl.induct with
  | case1 => rfl
  | case2 c => rfl
  | case3 c d rest hcd ih =>
    exfalso
    rw [hasDbl, if_pos hcd] at h
    simp at h
  | case4 c d rest hcd heq ih =>
    exact absurd heq (splitDbl_ne_nil _)
  | case5 c d rest hcd p ps heq ih =>
    rw [hasDbl, if_neg hcd] at h
    have hthis := ih h
    rw [heq] at hthis
    obtain ⟨h1, h2⟩ := List.cons.inj hthis
    rw [splitDbl, if_neg hcd, heq, h1, h2]

theorem mem_of_mem_splitDbl (l p : List Char) (hp : p ∈ splitDbl l)
    (x : Char) (hx : x ∈ p) : x ∈ l := by
  induction l using splitDbl.induct generalizing p with
  | case1 =>
    simp [splitDbl] at hp
    subst hp
    simp at hx
  | case2 c =>
    simp [splitDbl] at hp
    subst hp
    simpa using hx
  | case3 c d rest h ih =>
    rw [splitDbl, if_pos h] at hp
    rcases List.mem_cons.mp hp with rfl | hp'
    · simp at hx
    · exact List.mem_cons_of_mem _ (List.mem_cons_of_mem _ (ih p hp' hx))
  | case4 c d rest h heq ih =>
    exact absurd heq (splitDbl_ne_nil _)
  | case5 c d rest h p0 ps heq ih =>
    rw [splitDbl, if_neg h, heq] at hp
    rcases List.mem_cons.mp hp with rfl | hp'
    · rcases List.mem_cons.mp hx with rfl | hx'
      · exact List.mem_cons_self _ _
      · exact List.mem_cons_of_mem _
          (ih p0 (by rw [heq]; exact List.mem_cons_self _ _) hx')
    · exact List.mem_cons_of_mem _
        (ih p (by rw [heq]; exact List.mem_cons_of_mem _ hp') hx)

theorem pySplitlines_cons_not_break (c : Char) (rest : List Char)
    (h : isLineBreak c = false) :
    pySplitlines (c :: rest) =
      match pySplitlines rest with
      | [] => [[c]]
      | p :: ps => (c :: p) :: ps := by
  cases rest with
  | nil => simp [pySplitlines, h]
  | cons d r2 =>
    rw [show pySplitlines (c :: d :: r2) =
        match pySplitlines (d :: r2) with
        | [] => [[c]]
        | p :: ps => (c :: p) :: ps by
      rw [pySplitlines, if_neg (by simp [h])]]

theorem pySplitlines_cons_nl (s : List Char) :
    pySplitlines ('\n' :: s) = [] :: pySplitlines s := by
  cases s with
  | nil => rfl
  | cons d r =>
    rw [pySplitlines, if_pos (by decide), if_neg (by simp)]

theorem pySplitlines_single (l : List Char) (hne : l ≠ [])
    (hnb : ∀ x ∈ l, isLineBreak x = false) : pySplitlines l = [l] := by
  induction l with
  | nil => simp at hne
  | cons c r ih =>
    rw [pySplitlines_cons_not_break c r (hnb c (by simp))]
    cases r with
    | nil => rfl
    | cons d r' =>
      rw [ih (by simp) (fun x hx => hnb x (List.mem_cons_of_mem _ hx))]

theorem pySplitlines_append_nl (c s : List Char)
    (hnb : ∀ x ∈ c, isLineBreak x = false) :
    pySplitlines (c ++ '\n' :: s) = c :: pySplitlines s := by
  induction c with
  | nil =>
    simp only [List.nil_append]
    exact pySplitlines_cons_nl s
  | cons a c' ih =>
    rw [List.cons_append,
      pySplitlines_cons_not_break a _ (hnb a (by simp)),
      ih (fun x hx => hnb x (List.mem_cons_of_mem _ hx))]

theorem pySplitlines_no_break (t : List Char) :
    ∀ p ∈ pySplitlines t, ∀ x ∈ p, isLineBreak x = false := by
  induction t using pySplitlines.induct with
  | case1 => simp [pySplitlines]
  | case2 c hc =>
    intro p hp x hx
    rw [pySplitlines, if_pos hc] at hp
    simp at hp
    subst hp
    simp at hx
  | case3 c hc =>
    intro p hp x hx
    simp only [Bool.not_eq_true] at hc
    rw [pySplitlines, if_neg (by simp [hc])] at hp
    simp at hp
    subst hp
    simp at hx
    subst hx
    exact hc
  | case4 c d rest hc hcd ih =>
    intro p hp x hx
    rw [pySplitlines, if_pos hc, if_pos hcd] at hp
    rcases List.mem_cons.mp hp with rfl | hp'
    · simp at hx
    · exact ih p hp' x hx
  | case5 c d rest hc hcd ih =>
    intro p hp x hx
    rw [pySplitlines, if_pos hc, if_neg hcd] at hp
    rcases List.mem_cons.mp hp with rfl | hp'
    · simp at hx
    · exact ih p hp' x hx
  | case6 c d rest hc heq ih =>
    intro p hp x hx
    simp only [Bool.not_eq_true] at hc
    rw [pySplitlines, if_neg (by simp [hc]), heq] at hp
    simp at hp
    subst hp
    simp at hx
    subst hx
    exact hc
  | case7 c d rest hc v tail heq ih =>
    intro p hp x hx
    simp only [Bool.not_eq_true] at hc
    rw [pySplitlines, if_neg (by simp [hc]), heq] at hp
    rcases List.mem_cons.mp hp with rfl | hp'
    · rcases List.mem_cons.mp hx with rfl | hx'
      · exact hc
      · exact ih v (by rw [heq]; exact List.mem_cons_self _ _) x hx'
    · exact ih p (by rw [heq]; exact List.mem_cons_of_mem _ hp') x hx

theorem pySplitlines_joinNL (cs : List (List Char))
    (h : ∀ c ∈ cs, c ≠ [] ∧ ∀ x ∈ c, isLineBreak x = false) :
    pySplitlines (joinNL cs) = cs := by
  induction cs with
  | nil => rfl
  | cons c cs' ih =>
    cases cs' with
    | nil =>
      obtain ⟨hne, hnb⟩ := h c (List.mem_cons_self _ _)
      rw [show joinNL [c] = c from rfl]
      exact pySplitlines_single c hne hnb
    | cons c2 cs'' =>
      obtain ⟨hne, hnb⟩ := h c (List.mem_cons_self _ _)
      rw [show joinNL (c :: c2 :: cs'') = c ++ '\n' :: joinNL (c2 :: cs'')
        from rfl]
      rw [pySplitlines_append_nl c _ hnb]
      rw [ih (fun d hd => h d (List.mem_cons_of_mem _ hd))]

theorem map_id_of_eq (cs : List (List Char)) (f : List Char → List Char)
    (h : ∀ c ∈ cs, f c = c) : cs.map f = cs := by
  induction cs with
  | nil => rfl
  | cons c cs' ih =>
    rw [List.map_cons, h c (List.mem_cons_self _ _),
      ih (fun d hd => h d (List.mem_cons_of_mem _ hd))]

theorem flatMap_singleton_of_eq (cs : List (List Char))
    (f : List Char → List (List Char)) (h : ∀ c ∈ cs, f c = [c]) :
    cs.flatMap f = cs := by
  induction cs with
  | nil => rfl
  | cons c cs' ih =>
    rw [List.flatMap_cons, h c (List.mem_cons_self _ _),
      ih (fun d hd => h d (List.mem_cons_of_mem _ hd))]
    rfl

theorem chunksOf_props (t : List Char) :
    ∀ c ∈ chunksOf t, c ≠ [] ∧ pyStrip c = c ∧ hasDbl c = false ∧
      ∀ x ∈ c, isLineBreak x = false := by
  intro c hc
  unfold chunksOf at hc
  rw [List.mem_filter] at hc
  obtain ⟨hmem, hne⟩ := hc
  rw [List.mem_flatMap] at hmem
  obtain ⟨line, hline, hcin⟩ := hmem
  rw [List.mem_map] at hline hcin
  obtain ⟨phrase, hphr, hceq⟩ := hcin
  obtain ⟨l0, hl0, hleq⟩ := hline
  subst hceq hleq
  refine ⟨by simpa using hne, pyStrip_idem phrase, ?_, ?_⟩
  · exact hasDbl_false_of_sub _ _ (pyStrip_sub_self phrase)
      ((splitDbl_pieces (pyStrip l0)).1 phrase hphr)
  · intro x hx
    exact pySplitlines_no_break t l0 hl0 x
      (mem_of_mem_pyStrip l0 x
        (mem_of_mem_splitDbl (pyStrip l0) phrase hphr x
          (mem_of_mem_pyStrip phrase x hx)))

theorem chunksOf_joinNL (cs : List (List Char))
    (h : ∀ c ∈ cs, c ≠ [] ∧ pyStrip c = c ∧ hasDbl c = false ∧
      ∀ x ∈ c, isLineBreak x = false) :
    chunksOf (joinNL cs) = cs := by
  unfold chunksOf
  rw [pySplitlines_joinNL cs (fun c hc => ⟨(h c hc).1, (h c hc).2.2.2⟩)]
  rw [map_id_of_eq cs pyStrip (fun c hc => (h c hc).2.1)]
  rw [flatMap_singleton_of_eq cs _ (fun c hc => by
    rw [splitDbl_of_hasDbl_false c (h c hc).2.2.1]
    simp [(h c hc).2.1])]
  rw [List.filter_eq_self.mpr (fun c hc => by simpa using (h c hc).1)]

/-- C7: the mandatory text normalization of `get_page_text` — split into
lines, strip each, split at double spaces, strip and drop empty fragments,
rejoin with single newlines — is idempotent: applying it to its own output
returns the output unchanged. -/
theorem c7_normalize_idempotent : ∀ t : List Char,
    normalizeText (normalizeText t) = normalizeText t := by
  intro t
  unfold normalizeText
  rw [chunksOf_joinNL (chunksOf t) (chunksOf_props t)]

/-! ### Field extraction from the AI response (C3)

`extract_details_with_gemini` (job_scraper_engine.py lines 166-220; the
parsing block in job_tracker_v3.py lines 272-312 is identical) cleans the
response with `strip`/`replace`, then parses the whole text when it starts
with `{` and ends with `}`, else the substring from the first `{` to the
last `}` (`str.find`/`str.rfind`), returning `None` when no parseable
object is found.  `json.loads` is embedded as a strict JSON parser. -/

/-- JSON whitespace accepted by `json.loads`. -/
def isJsonWs (c : Char) : Bool := c = ' ' || c = '\t' || c = '\n' || c = '\r'

/-- Value of one hexadecimal digit. -/
def hexVal (c : Char) : Option Nat :=
  if '0' ≤ c ∧ c ≤ '9' then some (c.toNat - 48)
  else if 'a' ≤ c ∧ c ≤ 'f' then some (c.toNat - 87)
  else if 'A' ≤ c ∧ c ≤ 'F' then some (c.toNat - 55)
  else none

/-- JSON string escapes other than `\uXXXX`. -/
def escChar : Char → Option Char
  | '"' => some '"'
  | '\\' => some '\\'
  | '/' => some '/'
  | 'b' => some (Char.ofNat 8)
  | 'f' => some (Char.ofNat 12)
  | 'n' => some '\n'
  | 'r' => some '\r'
  | 't' => some '\t'
  | _ => none

/-- Parse the body of a JSON string after the opening quote (strict mode:
raw control characters are rejected); returns the decoded characters and
the remainder after the closing quote. -/
def parseJString : Nat → List Char → Option (List Char × List Char)
  | 0, _ => none
  | _ + 1, [] => none
  | fuel + 1, c :: rest =>
    if c = '"' then some ([], rest)
    else if c = '\\' then
      match rest with
      | [] => none
      | e :: rest2 =>
        if e = 'u' then
          match rest2 with
          | h1 :: h2 :: h3 :: h4 :: rest3 =>
            match hexVal h1, hexVal h2, hexVal h3, hexVal h4 with
            | some a, some b, some c2, some d =>
              match parseJString fuel rest3 with
              | some (str, rem) =>
                some (Char.ofNat (((a * 16 + b) * 16 + c2) * 16 + d) :: str, rem)
              | none => none
            | _, _, _, _ => none
          | _ => none
        else
          match escChar e with
          | some ec =>
            match parseJString fuel rest2 with
            | some (str, rem) => some (ec :: str, rem)
            | none => none
          | none => none
    else if c.toNat < 32 then none
    else
      match parseJString fuel rest with
      | some (str, rem) => some (c :: str, rem)
      | none => none

/-- Optional fraction part of a JSON number. -/
def parseFrac : List Char → Option (List Char × List Char)
  | '.' :: r =>
    if r.takeWhile Char.isDigit = [] then none
    else some ('.' :: r.takeWhile Char.isDigit, r.dropWhile Char.isDigit)
  | s => some ([], s)

/-- Optional exponent part of a JSON number. -/
def parseExp : List Char → Option (List Char × List Char)
  | c :: r =>
    if c = 'e' ∨ c = 'E' then
      match r with
      | '+' :: r' =>
        if r'.takeWhile Char.isDigit = [] then none
        else some (c :: '+' :: r'.takeWhile Char.isDigit,
          r'.dropWhile Char.isDigit)
      | '-' :: r' =>
        if r'.takeWhile Char.isDigit = [] then none
        else some (c :: '-' :: r'.takeWhile Char.isDigit,
          r'.dropWhile Char.isDigit)
      | _ =>
        if r.takeWhile Char.isDigit = [] then none
        else some (c :: r.takeWhile Char.isDigit, r.dropWhile Char.isDigit)
    else some ([], c :: r)
  | [] => some ([], [])

/-- Integer part of a JSON number: `0`, or a non-zero digit followed by
digits (leading zeros rejected, as in `json.loads`). -/
def parseIntPart : List Char → Option (List Char × List Char)
  | c :: r =>
    if c = '0' then some (['0'], r)
    else if c.isDigit then
      some ((c :: r).takeWhile Char.isDigit, (c :: r).dropWhile Char.isDigit)
    else none
  | [] => none

/-- A JSON number lexeme `-?(0|[1-9][0-9]*)(\.[0-9]+)?([eE][+-]?[0-9]+)?`. -/
def parseNumber (s : List Char) : Option (List Char × List Char) :=
  match s with
  | '-' :: r =>
    match parseIntPart r with
    | none => none
    | some (ip, s2) =>
      match parseFrac s2 with
      | none => none
      | some (fp, s3) =>
        match parseExp s3 with
        | none => none
        | some (ep, s4) => some ('-' :: (ip ++ fp ++ ep), s4)
  | _ =>
    match parseIntPart s with
    | none => none
    | some (ip, s2) =>
      match parseFrac s2 with
      | none => none
      | some (fp, s3) =>
        match parseExp s3 with
        | none => none
        | some (ep, s4) => some (ip ++ fp ++ ep, s4)

/-- A JSON value; numbers keep their lexeme, objects keep member order
(duplicate keys resolved last-wins by `jGet`), mirroring Python dicts. -/
inductive Json
  | null
  | bool (b : Bool)
  | num (lex : List Char)
  | str (s : List Char)
  | arr (xs : List Json)
  | obj (kvs : List (List Char × Json))

/-- Parser mode: a plain value, the members of an object being collected,
or the items of an array being collected. -/
inductive PMode
  | value
  | members (acc : List (List Char × Json))
  | items (acc : List Json)

/-- Recursive-descent JSON parser (the grammar accepted by `json.loads`,
including the non-strict constants `NaN`, `Infinity`, `-Infinity`).  The
fuel decreases on every recursive call; every call consumes at least one
character, so `length + 1` fuel always suffices. -/
def parseP : Nat → PMode → List Char → Option (Json × List Char)
  | 0, _, _ => none
  | fuel + 1, PMode.value, s =>
    match s.dropWhile isJsonWs with
    | [] => none
    | c :: r =>
      if c = '{' then
        match r.dropWhile isJsonWs with
        | '}' :: r2 => some (Json.obj [], r2)
        | s2 => parseP fuel (PMode.members []) s2
      else if c = '[' then
        match r.dropWhile isJsonWs with
        | ']' :: r2 => some (Json.arr [], r2)
        | s2 => parseP fuel (PMode.items []) s2
      else if c = '"' then
        match parseJString (r.length + 1) r with
        | some (str, rem) => some (Json.str str, rem)
        | none => none
      else if c = 't' then
        if "rue".toList.isPrefixOf r then some (Json.bool true, r.drop 3)
        else none
      else if c = 'f' then
        if "alse".toList.isPrefixOf r then some (Json.bool false, r.drop 4)
        else none
      else if c = 'n' then
        if "ull".toList.isPrefixOf r then some (Json.null, r.drop 3) else none
      else if c = 'N' then
        if "aN".toList.isPrefixOf r then some (Json.num ("NaN".toList), r.drop 2)
        else none
      else if c = 'I' then
        if "nfinity".toList.isPrefixOf r then
          some (Json.num ("Infinity".toList), r.drop 7)
        else none
      else if c = '-' ∧ "Infinity".toList.isPrefixOf r then
        some (Json.num ("-Infinity".toList), r.drop 8)
      else
        match parseNumber (c :: r) with
        | some (lex, rem) => some (Json.num lex, rem)
        | none => none
  | fuel + 1, PMode.members acc, s =>
    match s.dropWhile isJsonWs with
    | '"' :: r =>
      match parseJString (r.length + 1) r with
      | some (key, r2) =>
        match r2.dropWhile isJsonWs with
        | ':' :: r4 =>
          match parseP fuel PMode.value r4 with
          | some (v, r5) =>
            match r5.dropWhile isJsonWs with
            | ',' :: r7 => parseP fuel (PMode.members (acc ++ [(key, v)])) r7
            | '}' :: r7 => some (Json.obj (acc ++ [(key, v)]), r7)
            | _ => none
          | none => none
        | _ => none
      | none => none
    | _ => none
  | fuel + 1, PMode.items acc, s =>
    match parseP fuel PMode.value s with
    | some (v, r) =>
      match r.dropWhile isJsonWs with
      | ',' :: r3 => parseP fuel (PMode.items (acc ++ [v])) r3
      | ']' :: r3 => some (Json.arr (acc ++ [v]), r3)
      | _ => none
    | none => none

/-- `json.loads`: parse one value and require only whitespace after it. -/
def jsonLoads (s : List Char) : Option Json :=
  match parseP (s.length + 1) PMode.value s with
  | some (v, rest) => if rest.dropWhile isJsonWs = [] then some v else none
  | none => none

/-- Fuel-driven worker for `str.replace(pat, '')`: delete every left-to-right
non-overlapping occurrence of `pat`. -/
def pyReplaceDelGo (pat : List Char) : Nat → List Char → List Char
  | 0, s => s
  | _ + 1, [] => []
  | fuel + 1, c :: rest =>
    if pat ≠ [] ∧ pat.isPrefixOf (c :: rest) then
      pyReplaceDelGo pat fuel (rest.drop (pat.length - 1))
    else c :: pyReplaceDelGo pat fuel rest

/-- Python `s.replace(pat, '')` (each step consumes at least one character,
so `s.length` fuel suffices). -/
def pyReplaceDel (pat s : List Char) : List Char :=
  pyReplaceDelGo pat s.length s

/-- Python `str.find`: index of the first occurrence of the character. -/
def pyFind (s : List Char) (c : Char) : Option Nat :=
  s.findIdx? (fun x => x == c)

/-- Python `str.rfind`: index of the last occurrence of the character. -/
def pyRFind (s : List Char) (c : Char) : Option Nat :=
  (s.reverse.findIdx? (fun x => x == c)).map (fun k => s.length - 1 - k)

/-- The cleaning before parsing (job_scraper_engine.py line 194):
`response.text.strip().replace('\x60\x60\x60json', '').replace('\x60\x60\x60', '').strip()`. -/
def fenceClean (t : List Char) : List Char :=
  pyStrip (pyReplaceDel ("\x60\x60\x60".toList)
    (pyReplaceDel ("\x60\x60\x60json".toList) (pyStrip t)))

/-- The substring from the first `{` to the last `}` (empty-clamped when the
last `}` precedes the first `{`, as a Python slice is). -/
def braceSubstring (s : List Char) : Option (List Char) :=
  match pyFind s '{', pyRFind s '}' with
  | some i, some j => some ((s.drop i).take (j + 1 - i))
  | _, _ => none

/-- The `job_details` dictionary built on a successful extraction.  `JType`
models the `'Type'` key; a missing JSON key and an explicit JSON `null` both
become `Json.null`, as Python's `dict.get` conflates them to `None`. -/
structure JobDetails where
  Title : Json
  Company : Json
  Location : Json
  Salary : Json
  JType : Json
  URL : List Char
  DateAdded : List Char

/-- Python `details.get(k)` with the `None`/`null` conflation; duplicate
keys resolve to the last occurrence, as in a Python dict. -/
def jGetD (kvs : List (List Char × Json)) (k : List Char) : Json :=
  (((kvs.filter (fun p => p.1 == k)).getLast?).map (fun p => p.2)).getD Json.null

/-- The key mapping of `extract_details_with_gemini` (lines 207-215); `url`
and `today` are the tracking fields appended to the parsed object. -/
def mkJobDetails (kvs : List (List Char × Json)) (url today : List Char) :
    JobDetails :=
  { Title := jGetD kvs ("job_title".toList),
    Company := jGetD kvs ("company_name".toList),
    Location := jGetD kvs ("location".toList),
    Salary := jGetD kvs ("salary_range".toList),
    JType := jGetD kvs ("job_type".toList),
    URL := url, DateAdded := today }

/-- The parse step of `extract_details_with_gemini` (lines 196-205): whole
text when it starts with `{` and ends with `}`, else the
first-`{`-to-last-`}` substring when both braces exist, else failure. -/
def extractParsed (json_text : List Char) : Option Json :=
  if json_text.head? = some '{' ∧ json_text.getLast? = some '}' then
    jsonLoads json_text
  else
    match pyFind json_text '{', pyRFind json_text '}' with
    | some i, some j => jsonLoads ((json_text.drop i).take (j + 1 - i))
    | _, _ => none

/-- `extract_details_with_gemini` (job_scraper_engine.py lines 166-220): the
response text is cleaned and parsed; any parse failure is caught and yields
`None`.  The prompt construction and the model call itself are external and
are represented by the response text argument; `today` stands for the
`pd.to_datetime('today')` timestamp. -/
def extract_details_with_gemini (respText url today : List Char) :
    Option JobDetails :=
  match extractParsed (fenceClean respText) with
  | some (Json.obj kvs) => some (mkJobDetails kvs url today)
  | _ => none

/-- The recovery procedure exactly as the spec words it: parse the substring
from the first `{` to the last `}` of the fence-cleaned response. -/
def specExtractRecover (respText url today : List Char) : Option JobDetails :=
  match (braceSubstring (fenceClean respText)).bind jsonLoads with
  | some (Json.obj kvs) => some (mkJobDetails kvs url today)
  | _ => none

theorem braceSubstring_of_braces (s : List Char)
    (h1 : s.head? = some '{') (h2 : s.getLast? = some '}') :
    braceSubstring s = some s := by
  cases s with
  | nil => simp at h1
  | cons c r =>
    simp only [List.head?_cons, Option.some.injEq] at h1
    subst h1
    have hfind : pyFind ('{' :: r) '{' = some 0 := by
      unfold pyFind
      rw [List.findIdx?_cons]
      simp
    have hrfind : pyRFind ('{' :: r) '}' = some (('{' :: r).length - 1) := by
      unfold pyRFind
      rw [← List.head?_reverse] at h2
      cases hrev : ('{' :: r).reverse with
      | nil => simp [hrev] at h2
      | cons d rr =>
        rw [hrev] at h2
        simp only [List.head?_cons, Option.some.injEq] at h2
        subst h2
        rw [List.findIdx?_cons]
        simp
    unfold braceSubstring
    rw [hfind, hrfind]
    simp only [List.drop_zero, Nat.sub_zero]
    rw [show ('{' :: r).length - 1 + 1 = ('{' :: r).length by simp]
    rw [List.take_length]

theorem extractParsed_eq (s : List Char) :
    extractParsed s = (braceSubstring s).bind jsonLoads := by
  unfold extractParsed
  by_cases h : s.head? = some '{' ∧ s.getLast? = some '}'
  · rw [if_pos h, braceSubstring_of_braces s h.1 h.2]
    rfl
  · rw [if_neg h]
    unfold braceSubstring
    rcases hf : pyFind s '{' with _ | i <;>
      rcases hr : pyRFind s '}' with _ | j <;> simp

/-- The wrapped-response example of the spec: the JSON object inside a
code fence with surrounding prose. -/
def exampleResp : List Char :=
  "Here is the result:\n\x60\x60\x60json\n".toList ++
    ('{' :: (String.toList
      "\"job_title\": \"X\", \"company_name\": \"Y\", \"location\": \"Z\", \"salary_range\": null, \"job_type\": null" ++
    ('}' :: "\n\x60\x60\x60\nThanks".toList)))

set_option maxRecDepth 100000 in
theorem extract_details_on_example :
    extract_details_with_gemini exampleResp ("https://x".toList)
        ("2026-10-12 00:00:00".toList) =
      some { Title := Json.str ("X".toList), Company := Json.str ("Y".toList),
             Location := Json.str ("Z".toList), Salary := Json.null,
             JType := Json.null, URL := "https://x".toList,
             DateAdded := "2026-10-12 00:00:00".toList } := by
  rfl

/-- C3: the extraction parser equals, on every response text, the spec's
recovery procedure — locate the first `{` and the last `}` of the
fence-cleaned response, `json.loads` that substring, and fail (`None`) when
no parseable object exists; on the spec's wrapped example it recovers the
embedded object. -/
theorem c3_extraction_recovery :
    (∀ respText url today : List Char,
      extract_details_with_gemini respText url today =
        specExtractRecover respText url today) ∧
    extract_details_with_gemini exampleResp ("https://x".toList)
        ("2026-10-12 00:00:00".toList) =
      some { Title := Json.str ("X".toList), Company := Json.str ("Y".toList),
             Location := Json.str ("Z".toList), Salary := Json.null,
             JType := Json.null, URL := "https://x".toList,
             DateAdded := "2026-10-12 00:00:00".toList } := by
  refine ⟨fun respText url today => ?_, extract_details_on_example⟩
  unfold extract_details_with_gemini specExtractRecover
  rw [extractParsed_eq]

end YC
